import Mathlib

/-!
Shallow embedding of `ipenum.py` (enumerate IP addresses), verifying the
frozen claims about its range-parsing and enumeration engine.

Python strings are modelled as `List Char`; the standard-library pieces the
script calls (`re.split` on its fixed separator pattern, `str.strip`,
`str.find`/`str.rfind`, `ipaddress.ip_address`, `ipaddress.ip_network` with
`strict=False`, and the `hosts()` iterators) are modelled from CPython's
implementation, faithfully on every input the script can reach.  Printed
stdout lines are modelled as `(version, value, zone)` triples (the textual
rendering of an address is injective per version, so equality of printed
sequences coincides with equality of these triples); stderr diagnostics are
modelled as an inductive `ErrMsg` carrying the same arguments the script
interpolates into its messages.  Uncaught Python exceptions are modelled
explicitly, since one of the claims turns on them.
-/

abbrev Str := List Char

/-- Whitespace as matched by CPython's `\s` for `str` patterns and stripped by
`str.strip()`: the ASCII whitespace characters together with the Unicode
whitespace code points. -/
def isPySpace (c : Char) : Bool :=
  (9 ≤ c.val && c.val ≤ 13) || (28 ≤ c.val && c.val ≤ 31) || c.val = 32 ||
  c.val = 0x85 || c.val = 0xa0 || c.val = 0x1680 ||
  (0x2000 ≤ c.val && c.val ≤ 0x200a) || c.val = 0x2028 || c.val = 0x2029 ||
  c.val = 0x202f || c.val = 0x205f || c.val = 0x3000

/-- Length of the maximal prefix of `s` whose characters satisfy `p`. -/
def runLen (p : Char → Bool) : Str → Nat
  | [] => 0
  | c :: cs => if p c then runLen p cs + 1 else 0

/-- Python `str.strip()` with no arguments. -/
def pyStrip (s : Str) : Str :=
  ((s.dropWhile isPySpace).reverse.dropWhile isPySpace).reverse

/-- Python `str.find(c)`: index of the first occurrence of character `c`,
with `none` standing for Python's `-1`. -/
def pyFind (c : Char) : Str → Option Nat
  | [] => none
  | x :: xs => if x = c then some 0 else (pyFind c xs).map (· + 1)

/-- Python `str.rfind(c, start)`: index of the last occurrence of character
`c` at position `start` or later, `none` standing for `-1`. -/
def pyRfind (t : Str) (c : Char) (start : Nat) : Option Nat :=
  (List.range t.length).foldl
    (fun acc i => if start ≤ i ∧ t.get? i = some c then some i else acc) none

/-- Python `str.split(sep)` for a one-character separator (keeps empty
fragments, exactly as `str.split` with an explicit separator does). -/
def pySplitChar (sep : Char) : Str → List Str
  | [] => [[]]
  | c :: cs =>
    match pySplitChar sep cs with
    | [] => [[]]
    | r :: rs => if c = sep then [] :: r :: rs else (c :: r) :: rs

/-! ### The separator grammar of `parse_start_end`

`ipenum.py` splits a bare range expression with
`re.split(r'\s*(?:\s+(?:to\s)?|,?\.\{2,\},?|-+>?|[,;→⇒—…])\s*', rng)`.
The matcher below reproduces the backtracking behaviour of that pattern at a
single position; `reSplitSep` reproduces `re.split`'s left-to-right scan. -/

/-- The single-character separators accepted by the last alternative of the
separator pattern. -/
def isSingleSep (c : Char) : Bool :=
  c = ',' || c = ';' || c = '→' || c = '⇒' || c = '—' || c = '…'

/-- Match one of the alternatives `,?\.\{2,\},?`, `-+>?`, `[,;→⇒—…]` at the
head of `s` (the alternative `\s+(?:to\s)?` cannot match here because `s` is
only consulted at positions that carry no leading whitespace), returning the
number of characters consumed.  Alternatives are tried in the pattern's
order. -/
def matchAltNoWs (s : Str) : Option Nat :=
  -- ,?\.\{2,\},?  : optional comma, two or more periods, optional comma
  let c1 : Nat := if s.head? = some ',' then 1 else 0
  let p := runLen (· = '.') (s.drop c1)
  if 2 ≤ p then
    some (c1 + p + (if (s.drop (c1 + p)).head? = some ',' then 1 else 0))
  else
    -- -+>?  : one or more dashes, optional '>'
    let d := runLen (· = '-') s
    if 1 ≤ d then
      some (d + (if (s.drop d).head? = some '>' then 1 else 0))
    else
      -- [,;→⇒—…]
      match s.head? with
      | some c => if isSingleSep c then some 1 else none
      | none => none

/-- Does `s` start with `to` followed by one whitespace character (the
optional group `(?:to\s)?` of the first alternative)? -/
def startsWithToWs : Str → Bool
  | 't' :: 'o' :: c :: _ => isPySpace c
  | _ => false

/-- Match the full separator pattern `\s*(?:\s+(?:to\s)?|...)\s*` at the head
of `s`, returning the length of the (leftmost-greedy, backtracking) match.
The leading `\s*` is greedy; if no whitespace-free alternative matches after
it, the engine backtracks one character so that `\s+(?:to\s)?` can consume
the last whitespace character — exactly CPython's behaviour on this
pattern. -/
def matchSepAt (s : Str) : Option Nat :=
  let k := runLen isPySpace s
  if k = 0 then
    match matchAltNoWs s with
    | some j => some (j + runLen isPySpace (s.drop j))
    | none => none
  else
    match matchAltNoWs (s.drop k) with
    | some j => some (k + j + runLen isPySpace (s.drop (k + j)))
    | none =>
      let j := 1 + (if startsWithToWs (s.drop k) then 3 else 0)
      some ((k - 1) + j + runLen isPySpace (s.drop (k - 1 + j)))

/-- One step of `re.split`'s scan.  The fuel argument starts at the length of
the string; every step consumes at least one character (each separator match
is non-empty), so the fuel is never exhausted. -/
def splitGo : Nat → Str → Str → List Str
  | 0, rest, acc => [acc.reverse ++ rest]
  | fuel + 1, s, acc =>
    match s with
    | [] => [acc.reverse]
    | c :: cs =>
      match matchSepAt (c :: cs) with
      | some l => acc.reverse :: splitGo fuel ((c :: cs).drop l) []
      | none => splitGo fuel cs (c :: acc)

/-- `re.split` of the separator pattern over `rng` (line 225 of the source). -/
def reSplitSep (rng : Str) : List Str := splitGo rng.length rng []

/-- The token list of a bare range expression: the split fragments with empty
fragments removed (line 227 of the source). -/
def splitTokens (rng : Str) : List Str := (reSplitSep rng).filter (· ≠ [])

/-! ### Addresses (modelling CPython's `ipaddress` textual parsing)

`ipaddress.ip_address(s)` tries `IPv4Address(s)` and then `IPv6Address(s)`.
The script always strips zone suffixes before calling it, so the
scoped-literal branch of `IPv6Address` is never exercised and is not
modelled.  Parse failures raise `ValueError` in Python, which the script
catches at every call site; they are modelled as `none`. -/

/-- A parsed IP address: IP version (4 or 6) and numeric value. -/
structure IPAddr where
  version : Nat
  val : Nat
deriving DecidableEq, Repr

/-- Number of address bits of an IP version. -/
def addrBits (v : Nat) : Nat := if v = 4 then 32 else 128

/-- The all-ones (maximal) address value of an IP version. -/
def maxVal (v : Nat) : Nat := 2 ^ addrBits v - 1

def isHexDig (c : Char) : Bool :=
  c.isDigit || ('a' ≤ c && c ≤ 'f') || ('A' ≤ c && c ≤ 'F')

def digitVal (c : Char) : Nat := c.toNat - '0'.toNat

def hexDigVal (c : Char) : Nat :=
  if c.isDigit then c.toNat - '0'.toNat
  else if 'a' ≤ c && c ≤ 'f' then c.toNat - 'a'.toNat + 10
  else c.toNat - 'A'.toNat + 10

def decToNat (s : Str) : Nat := s.foldl (fun acc c => acc * 10 + digitVal c) 0

def hexToNat (s : Str) : Nat := s.foldl (fun acc c => acc * 16 + hexDigVal c) 0

/-- One dotted-quad octet (`IPv4Address._parse_octet`): 1-3 ASCII decimal
digits, no leading zero, value at most 255. -/
def parseOctet (s : Str) : Option Nat :=
  if s = [] then none
  else if ¬ s.all Char.isDigit then none
  else if 3 < s.length then none
  else if s.head? = some '0' ∧ 1 < s.length then none
  else if decToNat s ≤ 255 then some (decToNat s) else none

/-- `IPv4Address._ip_int_from_string`: exactly four octets joined by `.`. -/
def parseIPv4 (s : Str) : Option Nat :=
  match pySplitChar '.' s with
  | [a, b, c, d] => do
    let a ← parseOctet a
    let b ← parseOctet b
    let c ← parseOctet c
    let d ← parseOctet d
    pure (((a * 256 + b) * 256 + c) * 256 + d)
  | _ => none

/-- Lowercase hex digits of `n` (CPython renders the embedded-IPv4 hextets
with `'%x'`), most significant first; the fuel bounds the recursion. -/
def hexDigitsAux : Nat → Nat → List Nat
  | 0, _ => []
  | fuel + 1, n => if n = 0 then [] else hexDigitsAux fuel (n / 16) ++ [n % 16]

def hexChar (n : Nat) : Char :=
  if n < 10 then Char.ofNat ('0'.toNat + n) else Char.ofNat ('a'.toNat + n - 10)

/-- Python `'%x' % n` for `n < 2 ^ 16`. -/
def natToHex (n : Nat) : Str :=
  if n = 0 then ['0'] else (hexDigitsAux 16 n).map hexChar

/-- `IPv6Address._parse_hextet`: 1-4 hex digits. -/
def parseHextet (s : Str) : Option Nat :=
  if s = [] then none
  else if ¬ s.all isHexDig then none
  else if 4 < s.length then none
  else some (hexToNat s)

/-- Fold a run of hextets into an integer (`ip_int <<= 16; ip_int |= hextet`). -/
def foldHextets (l : List Str) : Option Nat :=
  (l.mapM parseHextet).map (List.foldl (fun acc h => acc * 65536 + h) 0)

/-- `IPv6Address._ip_int_from_string` (CPython): split on `:`, at least 3 and
at most 9 parts, an embedded dotted-quad in the last part replaced by two
hextets, at most one empty interior part (the `::`), an empty leading or
trailing part only as part of a leading or trailing `::`. -/
def parseIPv6 (s : Str) : Option Nat := do
  let parts := pySplitChar ':' s
  if parts.length < 3 then none else
  let parts ←
    match parts.getLast? with
    | some last =>
      if '.' ∈ last then do
        let v4 ← parseIPv4 last
        pure (parts.dropLast ++ [natToHex (v4 / 65536), natToHex (v4 % 65536)])
      else pure parts
    | none => none
  if 9 < parts.length then none else
  let empties := (List.range parts.length).filter
    (fun i => 0 < i ∧ i + 1 < parts.length ∧ parts.get? i = some [])
  match empties with
  | [] => do
    -- no '::' present: exactly eight non-empty parts
    if parts.length ≠ 8 then none else
    if parts.head? = some [] then none else
    if parts.getLast? = some [] then none else
    foldHextets parts
  | [skipIdx] => do
    let hi0 := skipIdx
    let lo0 := parts.length - skipIdx - 1
    let hi ← if parts.head? = some [] then
               if hi0 - 1 ≠ 0 then none else pure 0
             else pure hi0
    let lo ← if parts.getLast? = some [] then
               if lo0 - 1 ≠ 0 then none else pure 0
             else pure lo0
    if 8 - (hi + lo) < 1 then none else
    let skipped := 8 - (hi + lo)
    let vHi ← foldHextets (parts.take hi)
    let vLo ← foldHextets (parts.drop (parts.length - lo))
    pure (vHi * 2 ^ (16 * (skipped + lo)) + vLo)
  | _ => none  -- more than one empty interior part: at most one '::' permitted

/-- `ipaddress.ip_address` on a string: IPv4 first, then IPv6. -/
def ip_address (s : Str) : Option IPAddr :=
  match parseIPv4 s with
  | some v => some ⟨4, v⟩
  | none =>
    match parseIPv6 s with
    | some v => some ⟨6, v⟩
    | none => none

/-! ### `parse_start_end` (lines 191-273 of the source) -/

/-- The dynamic values the script stores in its `start`/`end` variables: the
initial `None`, a leftover token string when `ipaddress.ip_address` failed,
or a parsed address. -/
inductive Slot where
  | pyNone : Slot
  | pyStr : Str → Slot
  | pyAddr : IPAddr → Slot
deriving DecidableEq, Repr

/-- One diagnostic line on the error channel, one constructor per `err(...)`
call site of the script, carrying the values interpolated into the message. -/
inductive ErrMsg where
  | cannotParseCidrZone : Str → ErrMsg  -- line 171
  | cannotParseCidr : Str → ErrMsg      -- line 179
  | zoneV6OnlyCidr : Str → ErrMsg       -- line 182
  | noAddressFound : Str → ErrMsg       -- line 231
  | tooManyAddresses : Str → ErrMsg     -- line 233
  | inconsistentZone : Str → ErrMsg     -- line 243
  | zoneMismatch : Str → ErrMsg         -- line 253
  | cannotParseStart : Str → ErrMsg     -- line 260
  | cannotParseEnd : Str → ErrMsg       -- line 265
  | versionMismatch : Str → ErrMsg      -- line 268
  | zoneV6Only : Str → ErrMsg           -- line 271
deriving DecidableEq, Repr

/-- The 4-tuple `(start, end, zone_id, is_ok)` returned by `parse_start_end`,
together with the diagnostics it printed.  `isOk` is `none` for Python's
`None` (left untouched when no address was found), otherwise `some` of the
boolean. -/
structure PSE where
  start : Slot
  end_ : Slot
  zone : Str
  isOk : Option Bool
  errs : List ErrMsg
deriving DecidableEq, Repr

/-- Python truthiness of the script's `is_ok` variable. -/
def pyTruthy : Option Bool → Bool
  | some true => true
  | _ => false

/-- The zone suffix of a token, everything from the first `%` on (lines
245-251; empty when no `%` is present). -/
def tokZone (t : Str) : Str :=
  match pyFind '%' t with | some i => t.drop i | none => []

/-- The address part of a token, everything before the first `%` (lines
245-251). -/
def tokAddrPart (t : Str) : Str :=
  match pyFind '%' t with | some i => t.take i | none => t

/-- Lines 241-244: is `%` present on exactly one of the two tokens? -/
def zoneSideErr (t1 t2 : Str) : Bool :=
  ((pyFind '%' t1).isNone && !(pyFind '%' t2).isNone) ||
  (!(pyFind '%' t1).isNone && (pyFind '%' t2).isNone)

/-- The value left in a `start`/`end` variable after lines 257-266: the
parsed address, or the (zone-stripped) token string when parsing failed. -/
def tokSlot (t : Str) : Slot :=
  match ip_address (tokAddrPart t) with
  | some a => Slot.pyAddr a
  | none => Slot.pyStr (tokAddrPart t)

/-- The straight-line body of `parse_start_end` once two tokens `t1`, `t2`
are in hand (lines 240-272).  `rng` is only interpolated into diagnostics.
Each `is_ok = False` assignment of the source becomes one more conjunct of
the returned boolean; the diagnostics accumulate in source order. -/
def parse_two (rng t1 t2 : Str) : PSE :=
  -- lines 241-244: '%' on exactly one side
  let e1 : List ErrMsg := if zoneSideErr t1 t2 then [.inconsistentZone rng] else []
  -- lines 252-256: suffixes must agree; the common zone is lifted
  let zMis : Bool := tokZone t1 ≠ tokZone t2
  let e2 := e1 ++ (if zMis then [ErrMsg.zoneMismatch rng] else [])
  let zone : Str := if zMis then [] else tokZone t1
  -- lines 257-266: parse both addresses
  let sFail : Bool := (ip_address (tokAddrPart t1)).isNone
  let e3 := e2 ++ (if sFail then [ErrMsg.cannotParseStart (tokAddrPart t1)] else [])
  let eFail : Bool := (ip_address (tokAddrPart t2)).isNone
  let e4 := e3 ++ (if eFail then [ErrMsg.cannotParseEnd (tokAddrPart t2)] else [])
  let ok4 : Bool := !zoneSideErr t1 t2 && !zMis && !sFail && !eFail
  -- lines 267-269: versions must agree (only checked when still ok, in which
  -- case both slots hold addresses)
  let vMis : Bool := ok4 && (match tokSlot t1, tokSlot t2 with
    | .pyAddr a, .pyAddr b => a.version ≠ b.version
    | _, _ => false)
  let e5 := e4 ++ (if vMis then [ErrMsg.versionMismatch rng] else [])
  -- lines 270-272: a non-empty zone needs IPv6
  let z4 : Bool := (ok4 && !vMis) && !zone.isEmpty && (match tokSlot t1 with
    | .pyAddr a => a.version ≠ 6
    | _ => false)
  let e6 := e5 ++ (if z4 then [ErrMsg.zoneV6Only rng] else [])
  ⟨tokSlot t1, tokSlot t2, zone, some ((ok4 && !vMis) && !z4), e6⟩

/-- `parse_start_end` (lines 191-273): split, drop empty fragments, dispatch
on the number of tokens (duplicating a single token), then `parse_two`. -/
def parse_start_end (rng : Str) : PSE :=
  match splitTokens rng with
  | [] => ⟨.pyNone, .pyNone, [], none, [.noAddressFound rng]⟩
  | [t] => parse_two rng t t
  | [t1, t2] => parse_two rng t1 t2
  | _ => ⟨.pyNone, .pyNone, [], some false, [.tooManyAddresses rng]⟩

/-! ### `parse_interval` (lines 276-366) -/

/-- Uncaught Python exceptions the script can raise. -/
inductive PyExc where
  | addressValueError : PyExc  -- address arithmetic leaving the address space
  | typeError : PyExc          -- arithmetic/comparison on non-address values
  | valueErrorUnpack : PyExc   -- unpacking a 3-tuple into 4 targets
deriving DecidableEq, Repr

/-- The tuple returned by `parse_interval`: on an inner parse failure the
source's line 361 returns a 3-tuple `(start, end, is_ok)`, otherwise the
4-tuple `(start, end, zone_id, is_ok)`. -/
inductive IRet where
  | tup3 : Slot → Slot → Option Bool → IRet
  | tup4 : Slot → Slot → Str → Option Bool → IRet
deriving DecidableEq, Repr

/-- Result of `parse_interval`: a returned tuple or a raised exception. -/
inductive IOut where
  | ret : IRet → IOut
  | exc : PyExc → IOut
deriving DecidableEq, Repr

/-- Python `address + 1` on a slot: `ipaddress` addresses raise
`AddressValueError` when the successor leaves the address space; `+ 1` on a
leftover string or `None` raises `TypeError` (never reached by the script,
which only adjusts slots whose parse succeeded). -/
def addrSucc : Slot → Except PyExc Slot
  | .pyAddr a =>
    if a.val + 1 ≤ maxVal a.version then .ok (.pyAddr ⟨a.version, a.val + 1⟩)
    else .error .addressValueError
  | _ => .error .typeError

/-- Python `address - 1` on a slot (`AddressValueError` below zero). -/
def addrPred : Slot → Except PyExc Slot
  | .pyAddr a =>
    if a.val = 0 then .error .addressValueError
    else .ok (.pyAddr ⟨a.version, a.val - 1⟩)
  | _ => .error .typeError

/-- `parse_interval` (lines 276-366): parse the stripped interior as a bare
range; on failure return the 3-tuple of line 361; otherwise adjust the start
for an exclusive opening delimiter `(`/`]` and the end for an exclusive
closing delimiter `)`/`[`.  Diagnostics printed by the inner parse are
reported alongside the outcome. -/
def parse_interval (interval : Str) : List ErrMsg × IOut :=
  let r := parse_start_end (pyStrip ((interval.drop 1).dropLast))
  if ¬ pyTruthy r.isOk then (r.errs, .ret (.tup3 r.start r.end_ r.isOk))
  else
    let s1 := if interval.head? = some '(' ∨ interval.head? = some ']'
              then addrSucc r.start else .ok r.start
    match s1 with
    | .error e => (r.errs, .exc e)
    | .ok s1 =>
      let e1 := if interval.getLast? = some ')' ∨ interval.getLast? = some '['
                then addrPred r.end_ else .ok r.end_
      match e1 with
      | .error e => (r.errs, .exc e)
      | .ok e1 => (r.errs, .ret (.tup4 s1 e1 r.zone r.isOk))

/-! ### `print_start_end` (lines 369-420) -/

/-- One stdout line: the printed address (version and value) immediately
followed by the zone suffix. -/
structure OutLine where
  version : Nat
  val : Nat
  zone : Str
deriving DecidableEq, Repr

/-- The outcome of one expression: a returned code or an uncaught
exception. -/
inductive PyOut where
  | ok : Nat → PyOut
  | exc : PyExc → PyOut
deriving DecidableEq, Repr

/-- The loop of `print_start_end`: print and increment while
`address <= end`.  The fuel is the exact iteration count `end + 1 - cur`,
so the translation is exact: fuel `0` is the loop condition turning false.
Incrementing the all-ones address raises `AddressValueError` (after the
line for it was already printed), aborting the loop. -/
def enumGo (v : Nat) (zone : Str) : Nat → Nat → List OutLine × PyOut
  | 0, _ => ([], .ok 0)
  | fuel + 1, cur =>
    let line : OutLine := ⟨v, cur, zone⟩
    if maxVal v < cur + 1 then ([line], .exc .addressValueError)
    else
      let r := enumGo v zone fuel (cur + 1)
      (line :: r.1, r.2)

/-- `print_start_end` (lines 369-420): print every address from `start` to
`end_` inclusive, then return 0.  Comparing addresses of different versions
raises `TypeError` in Python, as does comparing leftover non-address slots
with an address; both are modelled as `TypeError` (the script only calls
this with two same-version parsed addresses). -/
def print_start_end (start end_ : Slot) (zone : Str) : List OutLine × PyOut :=
  match start, end_ with
  | .pyAddr a, .pyAddr b =>
    if a.version = b.version then enumGo a.version zone (b.val + 1 - a.val) a.val
    else ([], .exc .typeError)
  | _, _ => ([], .exc .typeError)

/-! ### `print_cidr` (lines 104-188) and `ipaddress.ip_network` -/

/-- A parsed network (`ipaddress.ip_network(..., strict=False)`): version,
network base address (the supplied address with its host bits masked off),
and prefix length. -/
structure Network where
  version : Nat
  base : Nat
  prefixLen : Nat
deriving DecidableEq, Repr

/-- `_prefix_from_prefix_string`: a non-empty ASCII-decimal string (leading
zeros allowed, sign and whitespace rejected) whose value is at most
`maxLen`. -/
def prefixFromString (s : Str) (maxLen : Nat) : Option Nat :=
  if s ≠ [] ∧ s.all Char.isDigit then
    if decToNat s ≤ maxLen then some (decToNat s) else none
  else none

/-- `_count_righthand_zero_bits`: trailing zero bits of `m`, at most `bits`
(and `bits` for `m = 0`); the fuel equals `bits`. -/
def countTrailingZeros : Nat → Nat → Nat
  | 0, _ => 0
  | fuel + 1, m =>
    if m % 2 = 1 then 0
    else if m = 0 then fuel + 1
    else countTrailingZeros fuel (m / 2) + 1

/-- `_prefix_from_ip_int`: a mask integer must consist of `p` one-bits
followed by zero-bits; returns `p`. -/
def prefixFromIpInt (m : Nat) (bits : Nat) : Option Nat :=
  let tz := countTrailingZeros bits m
  let p := bits - tz
  if m / 2 ^ tz = 2 ^ p - 1 then some p else none

/-- `IPv4Network._make_netmask` on a string: a decimal prefix length, else a
dotted-quad netmask, else a dotted-quad hostmask. -/
def netmaskPrefix4 (s : Str) : Option Nat :=
  match prefixFromString s 32 with
  | some p => some p
  | none =>
    match parseIPv4 s with
    | none => none
    | some m =>
      match prefixFromIpInt m 32 with
      | some p => some p
      | none => prefixFromIpInt (2 ^ 32 - 1 - m) 32

/-- Clear the low `bits - p` bits of `ip` (Python `ip & int(netmask)`). -/
def maskBase (ip bits p : Nat) : Nat := ip - ip % 2 ^ (bits - p)

/-- `IPv4Network(a/p, strict=False)` on strings (a missing prefix defaults
to the full length 32). -/
def tryNet4 (a : Str) (p : Option Str) : Option Network :=
  match parseIPv4 a with
  | none => none
  | some ip =>
    match (match p with | none => some 32 | some ps => netmaskPrefix4 ps) with
    | none => none
    | some pl => some ⟨4, maskBase ip 32 pl, pl⟩

/-- `IPv6Network(a/p, strict=False)` on strings (IPv6 accepts only decimal
prefix lengths; a missing prefix defaults to 128). -/
def tryNet6 (a : Str) (p : Option Str) : Option Network :=
  match parseIPv6 a with
  | none => none
  | some ip =>
    match (match p with | none => some 128 | some ps => prefixFromString ps 128) with
    | none => none
    | some pl => some ⟨6, maskBase ip 128 pl, pl⟩

/-- `ipaddress.ip_network(s, strict=False)`: split at `/` (at most one
permitted), try IPv4 and then IPv6. -/
def ipNetworkParse (s : Str) : Option Network :=
  match pySplitChar '/' s with
  | [a] => (tryNet4 a none).orElse (fun _ => tryNet6 a none)
  | [a, p] => (tryNet4 a (some p)).orElse (fun _ => tryNet6 a (some p))
  | _ => none

/-- Iterating a network yields every address of the block in ascending
order (`_BaseNetwork.__iter__`). -/
def networkFull (nw : Network) : List Nat :=
  (List.range (2 ^ (addrBits nw.version - nw.prefixLen))).map (nw.base + ·)

/-- `hosts()` (CPython): a full-length prefix yields just the network
address, a prefix one short of full yields the whole block; otherwise IPv4
drops the network and broadcast addresses and IPv6 drops only the
subnet-router anycast (first) address. -/
def networkHosts (nw : Network) : List Nat :=
  let bits := addrBits nw.version
  if nw.prefixLen = bits then [nw.base]
  else if nw.prefixLen = bits - 1 then networkFull nw
  else if nw.version = 4 then
    (List.range (2 ^ (bits - nw.prefixLen) - 2)).map (nw.base + 1 + ·)
  else
    (List.range (2 ^ (bits - nw.prefixLen) - 1)).map (nw.base + 1 + ·)

/-- Lines 166-175 of `print_cidr`: if a `%` is present, there must be a `/`
at or after it; the zone is excised from the string (`none` models the
error return of line 172). -/
def cidr_zone_split (net : Str) : Option (Str × Str) :=
  match pyFind '%' net with
  | none => some (net, [])
  | some i =>
    match pyRfind net '/' i with
    | none => none
    | some j => some (net.take i ++ net.drop j, (net.take j).drop i)

/-- `print_cidr` (lines 104-188): excise the zone, parse the network
(`strict=False`), reject a zone on a non-IPv6 network, then print the block
(restricted to `hosts()` when `hosts_only`), each line carrying the zone
suffix.  Returns the printed lines, the diagnostics and the return code. -/
def print_cidr (net : Str) (hosts_only : Bool) : List OutLine × List ErrMsg × Nat :=
  match cidr_zone_split net with
  | none => ([], [.cannotParseCidrZone net], 1)
  | some (net', zone) =>
    match ipNetworkParse net' with
    | none => ([], [.cannotParseCidr net'], 1)
    | some nw =>
      if zone ≠ [] ∧ nw.version ≠ 6 then ([], [.zoneV6OnlyCidr net'], 1)
      else
        (((if hosts_only then networkHosts nw else networkFull nw)).map
          (fun v => ⟨nw.version, v, zone⟩), [], 0)

/-! ### `print_ip_range` (lines 423-528) and the driver (lines 531-541) -/

/-- The classifier's bracket test (lines 518-520): more than one character,
first character one of `[`, `]`, `(`, last one of `[`, `]`, `)`. -/
def intervalShape (roc : Str) : Bool :=
  decide (1 < roc.length) &&
  (match roc.head? with
   | some c => c = '[' || c = ']' || c = '('
   | none => false) &&
  (match roc.getLast? with
   | some c => c = '[' || c = ']' || c = ')'
   | none => false)

/-- `print_ip_range` (lines 423-528): a `/` anywhere selects the CIDR path;
otherwise a bracket-delimited expression is parsed as an interval (the
caller unpacks four values, so the 3-tuple of line 361 raises `ValueError`),
and anything else as a bare range; a failed parse returns 1, a successful
one enumerates the range. -/
def print_ip_range (roc : Str) (hosts_only : Bool) :
    List OutLine × List ErrMsg × PyOut :=
  if '/' ∈ roc then
    let r := print_cidr roc hosts_only
    (r.1, r.2.1, .ok r.2.2)
  else if intervalShape roc then
    match parse_interval roc with
    | (errs, .exc e) => ([], errs, .exc e)
    | (errs, .ret (.tup3 _ _ _)) => ([], errs, .exc .valueErrorUnpack)
    | (errs, .ret (.tup4 s e z ok)) =>
      if pyTruthy ok then
        let r := print_start_end s e z
        (r.1, errs, r.2)
      else ([], errs, .ok 1)
  else
    let r := parse_start_end roc
    if pyTruthy r.isOk then
      let p := print_start_end r.start r.end_ r.zone
      (p.1, r.errs, p.2)
    else ([], r.errs, .ok 1)

/-- The `__main__` loop (lines 531-541): strip and process each expression,
summing the return codes; an uncaught exception aborts the batch (output
and diagnostics emitted so far stand).  On normal termination any positive
sum is clamped to 1. -/
def ipenum_go (hosts_only : Bool) : List Str → Nat → List OutLine × List ErrMsg × PyOut
  | [], code => ([], [], .ok (if code ≠ 0 then 1 else 0))
  | r :: rs, code =>
    match print_ip_range (pyStrip r) hosts_only with
    | (o, e, .exc exc) => (o, e, .exc exc)
    | (o, e, .ok rc) =>
      let rest := ipenum_go hosts_only rs (code + rc)
      (o ++ rest.1, e ++ rest.2.1, rest.2.2)

/-- The whole program on a batch of range expressions: printed lines,
diagnostics, and the exit status (or the exception that aborted it). -/
def ipenum_main (ranges : List Str) (hosts_only : Bool) :
    List OutLine × List ErrMsg × PyOut :=
  ipenum_go hosts_only ranges 0

/-! ### Helper lemmas -/

lemma pyFind_lt_length {c : Char} :
    ∀ {t : Str} {i : Nat}, pyFind c t = some i → i < t.length := by
  intro t
  induction t with
  | nil => intro i h; simp [pyFind] at h
  | cons x xs ih =>
    intro i h
    by_cases hx : x = c
    · simp [pyFind, hx] at h
      simp [List.length_cons]
      omega
    · simp [pyFind, hx] at h
      obtain ⟨j, hj, rfl⟩ := h
      have := ih hj
      simp [List.length_cons]
      omega

lemma drop_ne_nil_of_find {c : Char} {t : Str} {i : Nat}
    (h : pyFind c t = some i) : t.drop i ≠ [] := by
  have := pyFind_lt_length h
  simp [List.drop_eq_nil_iff]
  omega

lemma foldl_if_none {α : Type} (p : α → Prop) [DecidablePred p] (g : α → Option Nat)
    (l : List α) (acc : Option Nat) (h : ∀ x ∈ l, ¬ p x) :
    l.foldl (fun a x => if p x then g x else a) acc = acc := by
  induction l generalizing acc with
  | nil => rfl
  | cons y ys ih =>
    have hy : ¬ p y := h y (List.mem_cons_self y ys)
    simp [List.foldl_cons, if_neg hy]
    exact ih acc (fun x hx => h x (List.mem_cons_of_mem y hx))

lemma pyRfind_none {t : Str} {c : Char} {start : Nat}
    (h : ∀ j, start ≤ j → t.get? j ≠ some c) :
    pyRfind t c start = none := by
  unfold pyRfind
  exact foldl_if_none (fun i => start ≤ i ∧ t.get? i = some c) (fun i => some i)
    (List.range t.length) none (by intro x _ hx; exact h x hx.1 hx.2)

lemma range_map_add (b n : Nat) :
    (List.range n).map (b + ·) = List.range' b n := by
  rw [List.range_eq_range' n]
  have h := List.map_add_range' b 0 n 1
  rw [Nat.add_zero] at h
  exact h

lemma range'_dropLast (b : Nat) : ∀ n, (List.range' b (n + 1)).dropLast = List.range' b n := by
  suffices h : ∀ n b, (List.range' b (n + 1)).dropLast = List.range' b n by intro n; exact h n b
  intro n
  induction n with
  | zero => intro b; simp [List.range'_succ]
  | succ m ih =>
    intro b
    rw [List.range'_succ b (m + 1) 1]
    rw [List.range'_succ b m 1]
    have hne : List.range' (b + 1) (m + 1) ≠ [] := by
      simp [List.range'_eq_nil]
    rw [List.dropLast_cons_of_ne_nil hne]
    rw [ih (b + 1)]

/-- When the two-token parse succeeds, no diagnostics were printed and the
result does not depend on the surrounding range expression (which is only
interpolated into diagnostics). -/
lemma parse_two_ok_indep {r1 : Str} (r2 : Str) {t1 t2 : Str}
    (h : (parse_two r1 t1 t2).isOk = some true) :
    (parse_two r1 t1 t2).errs = [] ∧ parse_two r2 t1 t2 = parse_two r1 t1 t2 := by
  unfold parse_two at *
  simp only [Option.some.injEq, Bool.and_eq_true, Bool.not_eq_true'] at h
  obtain ⟨⟨⟨⟨⟨h1, h2⟩, h3⟩, h4⟩, h5⟩, h6⟩ := h
  refine ⟨?_, ?_⟩ <;>
  · simp only [h6]
    simp only [h5]
    simp only [h1, h2, h3, h4]
    simp

lemma mem_pyStrip {x : Char} {s : Str} (h : x ∈ pyStrip s) : x ∈ s := by
  unfold pyStrip at h
  rw [List.mem_reverse] at h
  have h2 := (List.dropWhile_sublist _).mem h
  rw [List.mem_reverse] at h2
  exact (List.dropWhile_sublist _).mem h2

lemma enumGo_lines (v : Nat) (z : Str) :
    ∀ fuel cur : Nat, cur + fuel ≤ maxVal v + 1 →
      (enumGo v z fuel cur).1 = (List.range' cur fuel).map (fun x => ⟨v, x, z⟩) := by
  intro fuel
  induction fuel with
  | zero => intro cur _; simp [enumGo]
  | succ n ih =>
    intro cur h
    by_cases hover : maxVal v < cur + 1
    · have hn : n = 0 := by omega
      subst hn
      simp [enumGo, hover, List.range'_succ]
    · simp [enumGo, hover, List.range'_succ, ih (cur + 1) (by omega)]

/-! ### The claims -/

/-- C1 (code bug): when the interior of an interval expression fails to
parse, `parse_interval` returns a 3-tuple (line 361) which the caller
unpacks into four targets, raising an uncaught `ValueError`; the batch is
aborted and the following expression `192.0.2.1` is never processed, so a
parse failure is not local to its expression.  The diagnostics emitted up
to that point are the two address-parse errors of the interval interior. -/
theorem C1_interval_parse_failure_crashes_batch :
    ipenum_main [("[x,y]").toList, ("192.0.2.1").toList] false =
      ([], [ErrMsg.cannotParseStart (("x").toList),
            ErrMsg.cannotParseEnd (("y").toList)], PyOut.exc PyExc.valueErrorUnpack) := by
  decide

/-- C4: a successfully parsed range with start greater than end prints
nothing, returns 0 with no diagnostic (also end-to-end through
`print_ip_range` for a bare expression); with start at most end it prints
exactly the addresses from start to end inclusive, in ascending order, each
carrying the zone suffix. -/
theorem C4_empty_and_full_ranges (a b : IPAddr) (z : Str)
    (hv : a.version = b.version) (hb : b.val ≤ maxVal b.version) :
    (b.val < a.val →
       print_start_end (Slot.pyAddr a) (Slot.pyAddr b) z = ([], PyOut.ok 0))
  ∧ (a.val ≤ b.val →
       (print_start_end (Slot.pyAddr a) (Slot.pyAddr b) z).1 =
         (List.range' a.val (b.val + 1 - a.val)).map (fun x => ⟨a.version, x, z⟩))
  ∧ (∀ roc h, '/' ∉ roc → intervalShape roc = false →
       parse_start_end roc = ⟨Slot.pyAddr a, Slot.pyAddr b, z, some true, []⟩ →
       b.val < a.val →
       print_ip_range roc h = ([], [], PyOut.ok 0)) := by
  have hempty : b.val < a.val →
      print_start_end (Slot.pyAddr a) (Slot.pyAddr b) z = ([], PyOut.ok 0) := by
    intro hlt
    have hz : b.val + 1 - a.val = 0 := by omega
    simp [print_start_end, hv, hz, enumGo]
  refine ⟨hempty, ?_, ?_⟩
  · intro hle
    have hbound : a.val + (b.val + 1 - a.val) ≤ maxVal b.version + 1 := by omega
    simp [print_start_end, hv, enumGo_lines b.version z (b.val + 1 - a.val) a.val hbound]
  · intro roc h hslash hshape hparse hlt
    simp [print_ip_range, hslash, hshape, hparse, pyTruthy, hempty hlt]

theorem C4_empty_and_full_ranges_witness :
    print_start_end (Slot.pyAddr ⟨4, 3221225985⟩) (Slot.pyAddr ⟨4, 3221225984⟩) [] =
      ([], PyOut.ok 0)
  ∧ print_ip_range (("192.0.2.1..192.0.2.0").toList) false = ([], [], PyOut.ok 0) := by
  have t := C4_empty_and_full_ranges ⟨4, 3221225985⟩ ⟨4, 3221225984⟩ [] rfl (by decide)
  exact ⟨t.1 (by decide),
         t.2.2 (("192.0.2.1..192.0.2.0").toList) false (by decide) (by decide)
           (by decide) (by decide)⟩

/-- C6: after separator splitting and removal of empty fragments, zero tokens
yield the no-address diagnostic (with `is_ok` left at Python's `None`), one
token is processed as a degenerate range with identical start and end, two
tokens become start and end, and more than two tokens yield the
too-many-addresses error. -/
theorem C6_token_cardinality (rng : Str) :
    (splitTokens rng = [] →
       parse_start_end rng =
         ⟨Slot.pyNone, Slot.pyNone, [], none, [ErrMsg.noAddressFound rng]⟩)
  ∧ (∀ t, splitTokens rng = [t] →
       parse_start_end rng = parse_two rng t t ∧
       (parse_start_end rng).start = (parse_start_end rng).end_)
  ∧ (∀ t1 t2, splitTokens rng = [t1, t2] →
       parse_start_end rng = parse_two rng t1 t2)
  ∧ (2 < (splitTokens rng).length →
       parse_start_end rng =
         ⟨Slot.pyNone, Slot.pyNone, [], some false, [ErrMsg.tooManyAddresses rng]⟩) := by
  refine ⟨?_, ?_, ?_, ?_⟩
  · intro h; simp [parse_start_end, h]
  · intro t h
    constructor
    · simp [parse_start_end, h]
    · simp [parse_start_end, h, parse_two]
  · intro t1 t2 h; simp [parse_start_end, h]
  · intro h
    rcases hlist : splitTokens rng with _ | ⟨x1, _ | ⟨x2, _ | ⟨x3, rest⟩⟩⟩ <;>
      rw [hlist] at h <;> simp at h
    simp [parse_start_end, hlist]

theorem C6_token_cardinality_witness :
    parse_start_end (("1.2.3.4,5.6.7.8").toList) =
      parse_two (("1.2.3.4,5.6.7.8").toList) (("1.2.3.4").toList) (("5.6.7.8").toList)
  ∧ parse_start_end (("x y z").toList) =
      ⟨Slot.pyNone, Slot.pyNone, [], some false,
       [ErrMsg.tooManyAddresses (("x y z").toList)]⟩ := by
  exact ⟨(C6_token_cardinality (("1.2.3.4,5.6.7.8").toList)).2.2.1
           (("1.2.3.4").toList) (("5.6.7.8").toList) (by decide),
         (C6_token_cardinality (("x y z").toList)).2.2.2 (by decide)⟩

/-- C9: the hosts-only flag only influences the CIDR path; for an expression
without a `/` the printed output, diagnostics and per-expression outcome are
identical for both flag values. -/
theorem C9_hosts_flag_only_affects_cidr (r : Str) (h1 h2 : Bool)
    (hs : '/' ∉ r) :
    print_ip_range (pyStrip r) h1 = print_ip_range (pyStrip r) h2 := by
  have hs' : '/' ∉ pyStrip r := fun hmem => hs (mem_pyStrip hmem)
  simp [print_ip_range, hs']

theorem C9_hosts_flag_only_affects_cidr_witness :
    print_ip_range (pyStrip (("2001:db8::1..2001:db8::2").toList)) true =
    print_ip_range (pyStrip (("2001:db8::1..2001:db8::2").toList)) false :=
  C9_hosts_flag_only_affects_cidr (("2001:db8::1..2001:db8::2").toList) true false
    (by decide)

/-- C10: an expression containing `%` and `/` but no `/` at or after the
first `%` is routed to the CIDR path, fails with the cannot-parse-CIDR-with-
zone-index diagnostic, prints no addresses and returns 1. -/
theorem C10_cidr_zone_without_slash_fails (net : Str) (h : Bool) (i : Nat)
    (hs : '/' ∈ net) (hi : pyFind '%' net = some i)
    (hafter : ∀ j, i ≤ j → j < net.length → net.get? j ≠ some '/') :
    print_ip_range net h = ([], [ErrMsg.cannotParseCidrZone net], PyOut.ok 1) := by
  have hafter' : ∀ j, i ≤ j → net.get? j ≠ some '/' := by
    intro j hj
    by_cases hlt : j < net.length
    · exact hafter j hj hlt
    · intro hc
      rw [List.get?_eq_none.mpr (le_of_not_lt hlt)] at hc
      simp at hc
  have hr : pyRfind net '/' i = none := pyRfind_none hafter'
  simp [print_ip_range, hs, print_cidr, cidr_zone_split, hi, hr]

theorem C10_cidr_zone_without_slash_fails_witness :
    print_ip_range (("1.2.3.0/24%zone").toList) false =
      ([], [ErrMsg.cannotParseCidrZone (("1.2.3.0/24%zone").toList)], PyOut.ok 1) :=
  C10_cidr_zone_without_slash_fails (("1.2.3.0/24%zone").toList) false 10
    (by decide) (by decide) (by decide)

/-- C5: in a two-token bare or interval range expression, a `%` on exactly
one token, or on both tokens with different suffixes, makes the parse fail
with the corresponding zone diagnostic (the spec's `InconsistentZone`) and
the expression produces no addresses on either the bare or the interval
path; byte-identical suffixes are lifted to the range level. -/
theorem C5_zone_consistency (rng t1 t2 : Str)
    (hsplit : splitTokens rng = [t1, t2]) :
    ((pyFind '%' t1).isNone ≠ (pyFind '%' t2).isNone →
       (parse_start_end rng).isOk = some false ∧
       ErrMsg.inconsistentZone rng ∈ (parse_start_end rng).errs)
  ∧ (∀ i j, pyFind '%' t1 = some i → pyFind '%' t2 = some j → t1.drop i ≠ t2.drop j →
       (parse_start_end rng).isOk = some false ∧
       ErrMsg.zoneMismatch rng ∈ (parse_start_end rng).errs)
  ∧ (∀ i j, pyFind '%' t1 = some i → pyFind '%' t2 = some j → t1.drop i = t2.drop j →
       (parse_start_end rng).zone = t1.drop i)
  ∧ (∀ h, (parse_start_end rng).isOk = some false → '/' ∉ rng →
       intervalShape rng = false →
       print_ip_range rng h = ([], (parse_start_end rng).errs, PyOut.ok 1))
  ∧ (∀ ext h, (parse_start_end rng).isOk = some false → '/' ∉ ext →
       intervalShape ext = true → pyStrip ((ext.drop 1).dropLast) = rng →
       (print_ip_range ext h).1 = [] ∧ (print_ip_range ext h).2.2 ≠ PyOut.ok 0) := by
  have hps : parse_start_end rng = parse_two rng t1 t2 := by
    simp [parse_start_end, hsplit]
  refine ⟨?_, ?_, ?_, ?_, ?_⟩
  · intro hx
    have hz : zoneSideErr t1 t2 = true := by
      unfold zoneSideErr
      cases hA : (pyFind '%' t1).isNone <;> cases hB : (pyFind '%' t2).isNone <;>
        simp_all
    rw [hps]
    unfold parse_two
    simp [hz]
  · intro i j hi hj hneq
    have hz1 : tokZone t1 = t1.drop i := by simp [tokZone, hi]
    have hz2 : tokZone t2 = t2.drop j := by simp [tokZone, hj]
    rw [hps]
    unfold parse_two
    simp [hz1, hz2, hneq]
  · intro i j hi hj heq
    have hz1 : tokZone t1 = t1.drop i := by simp [tokZone, hi]
    have hz2 : tokZone t2 = t2.drop j := by simp [tokZone, hj]
    rw [hps]
    unfold parse_two
    simp [hz1, hz2, heq]
  · intro h hok hslash hshape
    simp [print_ip_range, hslash, hshape, hok, pyTruthy]
  · intro ext h hok hslash hshape hstrip
    have hpi : parse_interval ext =
        ((parse_start_end rng).errs,
         IOut.ret (.tup3 (parse_start_end rng).start (parse_start_end rng).end_
           (parse_start_end rng).isOk)) := by
      unfold parse_interval
      rw [hstrip]
      simp [hok, pyTruthy]
    simp [print_ip_range, hslash, hshape, hpi]

theorem C5_zone_consistency_witness :
    ((parse_start_end (("fe80::1%a..fe80::2").toList)).isOk = some false ∧
     ErrMsg.inconsistentZone (("fe80::1%a..fe80::2").toList) ∈
       (parse_start_end (("fe80::1%a..fe80::2").toList)).errs)
  ∧ (parse_start_end (("ff02::10%eth0..ff02::20%eth0").toList)).zone =
      (("%eth0").toList) := by
  refine ⟨(C5_zone_consistency (("fe80::1%a..fe80::2").toList)
            (("fe80::1%a").toList) (("fe80::2").toList) (by decide)).1 (by decide), ?_⟩
  have t := (C5_zone_consistency (("ff02::10%eth0..ff02::20%eth0").toList)
              (("ff02::10%eth0").toList) (("ff02::20%eth0").toList) (by decide)).2.2.1
              8 8 (by decide) (by decide) (by decide)
  simpa using t

lemma ipenum_go_exit (hosts : Bool) :
    ∀ (rs : List Str) (acc : Nat) (out : List OutLine) (errs : List ErrMsg) (c : Nat),
      ipenum_go hosts rs acc = (out, errs, PyOut.ok c) →
      (c = 0 ↔ (acc = 0 ∧ ∀ r ∈ rs, (print_ip_range (pyStrip r) hosts).2.2 = PyOut.ok 0))
      ∧ (c = 0 ∨ c = 1) := by
  intro rs
  induction rs with
  | nil =>
    intro acc out errs c h
    simp only [ipenum_go, Prod.mk.injEq] at h
    obtain ⟨-, -, hc⟩ := h
    have hcv : (if acc ≠ 0 then 1 else 0) = c := by
      injection hc
    by_cases ha : acc = 0
    · have hc0 : c = 0 := by simp [ha] at hcv; omega
      subst hc0
      subst ha
      simp
    · have hc1 : c = 1 := by simp [ha] at hcv; omega
      constructor
      · constructor
        · intro h0
          exact absurd h0 (by omega)
        · rintro ⟨h0, -⟩
          exact absurd h0 ha
      · right
        exact hc1
  | cons r rs ih =>
    intro acc out errs c h
    simp only [ipenum_go] at h
    rcases hp : print_ip_range (pyStrip r) hosts with ⟨o, e, po⟩
    rw [hp] at h
    cases po with
    | exc ex => simp at h
    | ok rc =>
      simp only [Prod.mk.injEq] at h
      obtain ⟨-, -, hpo⟩ := h
      rcases hrest : ipenum_go hosts rs (acc + rc) with ⟨o2, e2, po2⟩
      rw [hrest] at hpo
      simp at hpo
      obtain ⟨hiff, h01⟩ := ih (acc + rc) o2 e2 c (by rw [hrest, hpo])
      refine ⟨?_, h01⟩
      rw [hiff]
      constructor
      · rintro ⟨hsum, hall⟩
        refine ⟨by omega, ?_⟩
        intro r' hr'
        rcases List.mem_cons.mp hr' with hr' | hr'
        · subst hr'
          rw [hp]
          have : rc = 0 := by omega
          simp [this]
        · exact hall r' hr'
      · rintro ⟨hacc, hall⟩
        have hr0 := hall r (List.mem_cons_self r rs)
        rw [hp] at hr0
        simp at hr0
        refine ⟨by omega, fun r' hr' => hall r' (List.mem_cons_of_mem r hr')⟩

/-- C7: when the batch terminates normally, the exit status is 0 exactly
when every (stripped) expression returned 0, and is 1 otherwise: the
sum-then-clamp aggregation behaves as an any-failure flag. -/
theorem C7_exit_status (ranges : List Str) (hosts : Bool)
    (out : List OutLine) (errs : List ErrMsg) (c : Nat)
    (h : ipenum_main ranges hosts = (out, errs, PyOut.ok c)) :
    (c = 0 ↔ ∀ r ∈ ranges, (print_ip_range (pyStrip r) hosts).2.2 = PyOut.ok 0)
  ∧ (c = 0 ∨ c = 1) := by
  have t := ipenum_go_exit hosts ranges 0 out errs c h
  simpa using t

theorem C7_exit_status_witness :
    ((0 : Nat) = 0 ↔ ∀ r ∈ [("192.0.2.1..192.0.2.0").toList],
       (print_ip_range (pyStrip r) false).2.2 = PyOut.ok 0)
  ∧ ((0 : Nat) = 0 ∨ (0 : Nat) = 1) :=
  C7_exit_status [("192.0.2.1..192.0.2.0").toList] false [] [] 0 (by decide)

lemma prefixFromString_le {s : Str} {m p : Nat} (h : prefixFromString s m = some p) :
    p ≤ m := by
  unfold prefixFromString at h
  split_ifs at h with h1 h2
  injection h with h
  omega

lemma countTrailingZeros_le (fuel : Nat) : ∀ m, countTrailingZeros fuel m ≤ fuel := by
  induction fuel with
  | zero => intro m; simp [countTrailingZeros]
  | succ n ih =>
    intro m
    unfold countTrailingZeros
    split_ifs
    · omega
    · omega
    · have := ih (m / 2)
      omega

lemma prefixFromIpInt_le {m bits p : Nat} (h : prefixFromIpInt m bits = some p) :
    p ≤ bits := by
  by_cases hc : m / 2 ^ (countTrailingZeros bits m) =
      2 ^ (bits - countTrailingZeros bits m) - 1
  · simp [prefixFromIpInt, hc] at h
    omega
  · simp [prefixFromIpInt, hc] at h

lemma netmaskPrefix4_le {s : Str} {p : Nat} (h : netmaskPrefix4 s = some p) : p ≤ 32 := by
  unfold netmaskPrefix4 at h
  cases h1 : prefixFromString s 32 with
  | some q =>
    rw [h1] at h
    simp at h
    subst h
    exact prefixFromString_le h1
  | none =>
    rw [h1] at h
    simp only [] at h
    cases h2 : parseIPv4 s with
    | none => rw [h2] at h; simp at h
    | some m =>
      rw [h2] at h
      simp only [] at h
      cases h3 : prefixFromIpInt m 32 with
      | some q =>
        rw [h3] at h
        simp at h
        subst h
        exact prefixFromIpInt_le h3
      | none =>
        rw [h3] at h
        simp only [] at h
        exact prefixFromIpInt_le h

lemma tryNet4_inv {a : Str} {p : Option Str} {nw : Network}
    (h : tryNet4 a p = some nw) : nw.version = 4 ∧ nw.prefixLen ≤ 32 := by
  unfold tryNet4 at h
  cases hip : parseIPv4 a with
  | none => rw [hip] at h; simp at h
  | some ip =>
    rw [hip] at h
    simp only [] at h
    cases p with
    | none =>
      simp at h
      subst h
      exact ⟨rfl, Nat.le_refl 32⟩
    | some ps =>
      simp only [] at h
      cases hm : netmaskPrefix4 ps with
      | none => rw [hm] at h; simp at h
      | some pl =>
        rw [hm] at h
        simp at h
        subst h
        exact ⟨rfl, netmaskPrefix4_le hm⟩

lemma tryNet6_inv {a : Str} {p : Option Str} {nw : Network}
    (h : tryNet6 a p = some nw) : nw.version = 6 ∧ nw.prefixLen ≤ 128 := by
  unfold tryNet6 at h
  cases hip : parseIPv6 a with
  | none => rw [hip] at h; simp at h
  | some ip =>
    rw [hip] at h
    simp only [] at h
    cases p with
    | none =>
      simp at h
      subst h
      exact ⟨rfl, Nat.le_refl 128⟩
    | some ps =>
      simp only [] at h
      cases hm : prefixFromString ps 128 with
      | none => rw [hm] at h; simp at h
      | some pl =>
        rw [hm] at h
        simp at h
        subst h
        exact ⟨rfl, prefixFromString_le hm⟩

lemma ipNetworkParse_inv {s : Str} {nw : Network} (h : ipNetworkParse s = some nw) :
    (nw.version = 4 ∧ nw.prefixLen ≤ 32) ∨ (nw.version = 6 ∧ nw.prefixLen ≤ 128) := by
  unfold ipNetworkParse at h
  rcases hsp : pySplitChar '/' s with _ | ⟨a, _ | ⟨p, _ | ⟨q, rest⟩⟩⟩ <;>
    (rw [hsp] at h; simp only [] at h)
  · exact absurd h (by simp)
  · cases h4 : tryNet4 a none with
    | some m =>
      rw [h4] at h
      simp [Option.orElse] at h
      subst h
      exact Or.inl (tryNet4_inv h4)
    | none =>
      rw [h4] at h
      simp [Option.orElse] at h
      exact Or.inr (tryNet6_inv h)
  · cases h4 : tryNet4 a (some p) with
    | some m =>
      rw [h4] at h
      simp [Option.orElse] at h
      subst h
      exact Or.inl (tryNet4_inv h4)
    | none =>
      rw [h4] at h
      simp [Option.orElse] at h
      exact Or.inr (tryNet6_inv h)
  · exact absurd h (by simp)

lemma networkFull_eq_range' (nw : Network) :
    networkFull nw = List.range' nw.base (2 ^ (addrBits nw.version - nw.prefixLen)) := by
  unfold networkFull
  exact range_map_add nw.base _

lemma networkHosts_drop_v6 (nw : Network) (hv : nw.version = 6)
    (hple : nw.prefixLen ≤ 128) :
    networkHosts nw =
      (networkFull nw).drop (if nw.prefixLen ≤ 126 then 1 else 0) := by
  have hbits : addrBits nw.version = 128 := by rw [hv]; rfl
  by_cases h128 : nw.prefixLen = 128
  · unfold networkHosts networkFull
    rw [hbits, if_pos h128, if_neg (by omega : ¬ nw.prefixLen ≤ 126), h128]
    rfl
  · by_cases h127 : nw.prefixLen = 127
    · unfold networkHosts
      rw [hbits, if_neg h128, if_pos (by omega : nw.prefixLen = 128 - 1),
          if_neg (by omega : ¬ nw.prefixLen ≤ 126)]
      rfl
    · have hle : nw.prefixLen ≤ 126 := by omega
      unfold networkHosts
      rw [hbits, if_neg h128, if_neg (by omega : ¬ nw.prefixLen = 128 - 1),
          if_neg (by simp [hv] : ¬ nw.version = 4), if_pos hle]
      rw [range_map_add, networkFull_eq_range', hbits]
      obtain ⟨n, hn⟩ : ∃ n, n = 2 ^ (128 - nw.prefixLen) := ⟨_, rfl⟩
      have hn1 : 1 ≤ n := by rw [hn]; exact Nat.one_le_two_pow
      rw [← hn]
      have hsplit : n = (n - 1) + 1 := by omega
      conv_rhs => rw [hsplit, List.range'_succ]
      simp

lemma networkHosts_v4 (nw : Network) (hv : nw.version = 4)
    (hple : nw.prefixLen ≤ 32) :
    networkHosts nw =
      (if nw.prefixLen ≤ 30 then ((networkFull nw).drop 1).dropLast
       else networkFull nw) := by
  have hbits : addrBits nw.version = 32 := by rw [hv]; rfl
  by_cases h32 : nw.prefixLen = 32
  · unfold networkHosts networkFull
    rw [hbits, if_pos h32, if_neg (by omega : ¬ nw.prefixLen ≤ 30), h32]
    rfl
  · by_cases h31 : nw.prefixLen = 31
    · unfold networkHosts
      rw [hbits, if_neg h32, if_pos (by omega : nw.prefixLen = 32 - 1),
          if_neg (by omega : ¬ nw.prefixLen ≤ 30)]
    · have hle : nw.prefixLen ≤ 30 := by omega
      unfold networkHosts
      rw [hbits, if_neg h32, if_neg (by omega : ¬ nw.prefixLen = 32 - 1),
          if_pos hv, if_pos hle]
      rw [range_map_add, networkFull_eq_range', hbits]
      obtain ⟨n, hn⟩ : ∃ n, n = 2 ^ (32 - nw.prefixLen) := ⟨_, rfl⟩
      have hn4 : 4 ≤ n := by
        rw [hn]
        calc (4:Nat) = 2 ^ 2 := by norm_num
          _ ≤ 2 ^ (32 - nw.prefixLen) := Nat.pow_le_pow_right (by omega) (by omega)
      rw [← hn]
      have e1 : (List.range' nw.base n).drop 1 = List.range' (nw.base + 1) (n - 1) := by
        have hsplit : n = (n - 1) + 1 := by omega
        conv_lhs => rw [hsplit, List.range'_succ]
        simp
      have e2 : (List.range' (nw.base + 1) (n - 1)).dropLast =
          List.range' (nw.base + 1) (n - 2) := by
        have hsplit : n - 1 = (n - 2) + 1 := by omega
        conv_lhs => rw [hsplit, range'_dropLast]
      rw [e1, e2]

/-- C2 (amended): for an IPv6 CIDR expression, host-only filtering removes
exactly the first (subnet-router anycast) address when the prefix length is
at most 126, and removes nothing when it is 127 or 128 (Python's `hosts()`
returns the whole block for a /127 and the single address for a /128); the
full block and the filtered output are consecutive ascending address
sequences. -/
theorem C2_v6_hosts_only (s netS z : Str) (nw : Network)
    (hz : cidr_zone_split s = some (netS, z))
    (hn : ipNetworkParse netS = some nw)
    (hv : nw.version = 6) :
    (print_cidr s true).2 = ([], 0)
  ∧ (print_cidr s false).2 = ([], 0)
  ∧ (print_cidr s false).1 =
      (List.range' nw.base (2 ^ (128 - nw.prefixLen))).map
        (fun x => ⟨nw.version, x, z⟩)
  ∧ (print_cidr s true).1 =
      ((print_cidr s false).1).drop (if nw.prefixLen ≤ 126 then 1 else 0)
  ∧ (print_cidr s false).1.length =
      (print_cidr s true).1.length + (if nw.prefixLen ≤ 126 then 1 else 0) := by
  have hple : nw.prefixLen ≤ 128 := by
    rcases ipNetworkParse_inv hn with ⟨h4, -⟩ | ⟨-, hle⟩
    · rw [h4] at hv; omega
    · exact hle
  have hbits : addrBits nw.version = 128 := by rw [hv]; rfl
  have hf : print_cidr s false =
      ((networkFull nw).map (fun x => ⟨nw.version, x, z⟩), [], 0) := by
    simp [print_cidr, hz, hn, hv]
  have ht : print_cidr s true =
      ((networkHosts nw).map (fun x => ⟨nw.version, x, z⟩), [], 0) := by
    simp [print_cidr, hz, hn, hv]
  have hdrop := networkHosts_drop_v6 nw hv hple
  have hlen : (networkFull nw).length =
      (networkHosts nw).length + (if nw.prefixLen ≤ 126 then 1 else 0) := by
    rw [hdrop, List.length_drop]
    have h1 : 1 ≤ (networkFull nw).length := by
      rw [networkFull_eq_range', List.length_range']
      exact Nat.one_le_two_pow
    by_cases hc : nw.prefixLen ≤ 126 <;> simp [hc] <;> omega
  refine ⟨by rw [ht], by rw [hf], ?_, ?_, ?_⟩
  · rw [hf, networkFull_eq_range', hbits]
  · rw [hf, ht, hdrop, List.map_drop]
  · rw [hf, ht, List.length_map, List.length_map]
    exact hlen

theorem C2_v6_hosts_only_witness :
    (print_cidr (("2001:db8::/126").toList) true).1 =
      ((print_cidr (("2001:db8::/126").toList) false).1).drop 1 := by
  have t := C2_v6_hosts_only (("2001:db8::/126").toList) (("2001:db8::/126").toList)
    [] ⟨6, 42540766411282592856903984951653826560, 126⟩ (by decide) (by decide) rfl
  have h4 := t.2.2.2.1
  simpa using h4

/-- C2 (counterexample to the claim as stated): `2001:db8::/127` has prefix
length 127 < 128, yet host-only filtering removes no address at all: the
filtered output equals the unfiltered two-address block, with the
subnet-router anycast `2001:db8::` still present as its first line. -/
theorem C2_hosts_only_127_counterexample :
    (ipNetworkParse (("2001:db8::/127").toList)).map Network.prefixLen = some 127
  ∧ print_cidr (("2001:db8::/127").toList) true =
      print_cidr (("2001:db8::/127").toList) false
  ∧ (print_cidr (("2001:db8::/127").toList) true).1.length = 2
  ∧ ((print_cidr (("2001:db8::/127").toList) true).1.map OutLine.val).head? =
      some 42540766411282592856903984951653826560 := by
  refine ⟨by decide, by decide, by decide, by decide⟩

/-- C8: for an IPv4 CIDR expression without a zone, host-only filtering
removes exactly the first (network) and last (broadcast) addresses when the
prefix length is at most 30, and removes nothing when it is 31 or 32. -/
theorem C8_v4_hosts_only (s netS z : Str) (nw : Network)
    (hz : cidr_zone_split s = some (netS, z))
    (hn : ipNetworkParse netS = some nw)
    (hv : nw.version = 4) (hzero : z = []) :
    (print_cidr s true).2 = ([], 0)
  ∧ (print_cidr s false).2 = ([], 0)
  ∧ (print_cidr s false).1 =
      (List.range' nw.base (2 ^ (32 - nw.prefixLen))).map
        (fun x => ⟨nw.version, x, z⟩)
  ∧ (nw.prefixLen ≤ 30 →
       (print_cidr s true).1 = (((print_cidr s false).1).drop 1).dropLast
     ∧ (print_cidr s false).1.length = (print_cidr s true).1.length + 2)
  ∧ (30 < nw.prefixLen → (print_cidr s true).1 = (print_cidr s false).1) := by
  have hple : nw.prefixLen ≤ 32 := by
    rcases ipNetworkParse_inv hn with ⟨-, hle⟩ | ⟨h6, -⟩
    · exact hle
    · rw [h6] at hv; omega
  have hbits : addrBits nw.version = 32 := by rw [hv]; rfl
  have hf : print_cidr s false =
      ((networkFull nw).map (fun x => ⟨nw.version, x, z⟩), [], 0) := by
    simp [print_cidr, hz, hn, hzero]
  have ht : print_cidr s true =
      ((networkHosts nw).map (fun x => ⟨nw.version, x, z⟩), [], 0) := by
    simp [print_cidr, hz, hn, hzero]
  have hhost := networkHosts_v4 nw hv hple
  refine ⟨by rw [ht], by rw [hf], ?_, ?_, ?_⟩
  · rw [hf, networkFull_eq_range', hbits]
  · intro hle
    rw [if_pos hle] at hhost
    constructor
    · rw [hf, ht, hhost, List.map_dropLast, List.map_drop]
    · rw [hf, ht, List.length_map, List.length_map, hhost]
      rw [List.length_dropLast, List.length_drop]
      have h4 : 4 ≤ (networkFull nw).length := by
        rw [networkFull_eq_range', hbits, List.length_range']
        have h2 : 2 ≤ 32 - nw.prefixLen := by omega
        calc 4 = 2 ^ 2 := by norm_num
        _ ≤ 2 ^ (32 - nw.prefixLen) := Nat.pow_le_pow_right (by omega) h2
      omega
  · intro hgt
    rw [if_neg (by omega)] at hhost
    rw [hf, ht, hhost]

theorem C8_v4_hosts_only_witness :
    ((print_cidr (("192.0.2.16/29").toList) true).1 =
       (((print_cidr (("192.0.2.16/29").toList) false).1).drop 1).dropLast)
  ∧ (print_cidr (("192.0.2.8/31").toList) true).1 =
      (print_cidr (("192.0.2.8/31").toList) false).1 := by
  constructor
  · exact ((C8_v4_hosts_only (("192.0.2.16/29").toList) (("192.0.2.16/29").toList)
      [] ⟨4, 3221226000, 29⟩ (by decide) (by decide) rfl rfl).2.2.2.1 (by decide)).1
  · exact (C8_v4_hosts_only (("192.0.2.8/31").toList) (("192.0.2.8/31").toList)
      [] ⟨4, 3221225992, 31⟩ (by decide) (by decide) rfl rfl).2.2.2.2 (by decide)

/-- Evaluation of `parse_interval` on a delimited expression whose interior
parses successfully: the start is incremented for an exclusive opening
delimiter and the end decremented for an exclusive closing delimiter. -/
lemma parse_interval_eval (d1 d2 : Char) (inner : Str) (s e : IPAddr) (z : Str)
    (hpse : parse_start_end (pyStrip inner) =
      ⟨Slot.pyAddr s, Slot.pyAddr e, z, some true, []⟩)
    (hsucc : d1 = '(' ∨ d1 = ']' → s.val + 1 ≤ maxVal s.version)
    (hpred : d2 = ')' ∨ d2 = '[' → 1 ≤ e.val) :
    parse_interval (d1 :: inner ++ [d2]) =
      ([], IOut.ret (.tup4
        (if d1 = '(' ∨ d1 = ']' then Slot.pyAddr ⟨s.version, s.val + 1⟩
         else Slot.pyAddr s)
        (if d2 = ')' ∨ d2 = '[' then Slot.pyAddr ⟨e.version, e.val - 1⟩
         else Slot.pyAddr e)
        z (some true))) := by
  unfold parse_interval
  have hdrop : ((d1 :: inner ++ [d2]).drop 1).dropLast = inner := by
    simp [List.dropLast_concat]
  rw [hdrop, hpse]
  have hhead : (d1 :: inner ++ [d2]).head? = some d1 := rfl
  have hlast : (d1 :: inner ++ [d2]).getLast? = some d2 := by
    rw [show d1 :: inner ++ [d2] = (d1 :: inner) ++ [d2] from rfl]
    exact List.getLast?_concat _
  rw [hhead, hlast]
  by_cases hd1 : d1 = '(' ∨ d1 = ']' <;> by_cases hd2 : d2 = ')' ∨ d2 = '['
  · have hs := hsucc hd1
    have he := hpred hd2
    simp [pyTruthy, hd1, hd2, addrSucc, addrPred, hs]
    rw [if_neg (by omega : ¬ e.val = 0)]
  · have hs := hsucc hd1
    simp [pyTruthy, hd1, hd2, addrSucc, addrPred, hs]
  · have he := hpred hd2
    simp [pyTruthy, hd1, hd2, addrSucc, addrPred]
    rw [if_neg (by omega : ¬ e.val = 0)]
  · simp [pyTruthy, hd1, hd2, addrSucc, addrPred]

/-- C3: for a pair of separator-free same-version address tokens with
consistent zones, the interval expression `[a,b]` yields the same
(start, end, zone) triple as the bare range `a..b` — and hence the same
printed output; `(a,b]` and `]a,b]` yield the triple with the start
incremented, `[a,b)` and `[a,b[` the triple with the end decremented, and
`(a,b)` and `]a,b[` both adjustments, provided the adjusted bounds stay in
the address space. -/
theorem C3_interval_bracket_semantics (a b : Str) (s e : IPAddr) (z : Str)
    (hsb : splitTokens (a ++ (("..").toList) ++ b) = [a, b])
    (hsc : splitTokens (a ++ [','] ++ b) = [a, b])
    (hstrip : pyStrip (a ++ [','] ++ b) = a ++ [','] ++ b)
    (hbare : parse_start_end (a ++ (("..").toList) ++ b) =
      ⟨Slot.pyAddr s, Slot.pyAddr e, z, some true, []⟩)
    (hsmax : s.val < maxVal s.version) (hepos : 0 < e.val)
    (hslash : '/' ∉ a ∧ '/' ∉ b)
    (hbshape : intervalShape (a ++ (("..").toList) ++ b) = false) :
    parse_interval ('[' :: (a ++ [','] ++ b) ++ [']']) =
      ([], IOut.ret (.tup4 (Slot.pyAddr s) (Slot.pyAddr e) z (some true)))
  ∧ parse_interval ('(' :: (a ++ [','] ++ b) ++ [']']) =
      ([], IOut.ret (.tup4 (Slot.pyAddr ⟨s.version, s.val + 1⟩)
        (Slot.pyAddr e) z (some true)))
  ∧ parse_interval (']' :: (a ++ [','] ++ b) ++ [']']) =
      ([], IOut.ret (.tup4 (Slot.pyAddr ⟨s.version, s.val + 1⟩)
        (Slot.pyAddr e) z (some true)))
  ∧ parse_interval ('[' :: (a ++ [','] ++ b) ++ [')']) =
      ([], IOut.ret (.tup4 (Slot.pyAddr s)
        (Slot.pyAddr ⟨e.version, e.val - 1⟩) z (some true)))
  ∧ parse_interval ('[' :: (a ++ [','] ++ b) ++ ['[']) =
      ([], IOut.ret (.tup4 (Slot.pyAddr s)
        (Slot.pyAddr ⟨e.version, e.val - 1⟩) z (some true)))
  ∧ parse_interval ('(' :: (a ++ [','] ++ b) ++ [')']) =
      ([], IOut.ret (.tup4 (Slot.pyAddr ⟨s.version, s.val + 1⟩)
        (Slot.pyAddr ⟨e.version, e.val - 1⟩) z (some true)))
  ∧ parse_interval (']' :: (a ++ [','] ++ b) ++ ['[']) =
      ([], IOut.ret (.tup4 (Slot.pyAddr ⟨s.version, s.val + 1⟩)
        (Slot.pyAddr ⟨e.version, e.val - 1⟩) z (some true)))
  ∧ (∀ h, print_ip_range ('[' :: (a ++ [','] ++ b) ++ [']']) h =
      print_ip_range (a ++ (("..").toList) ++ b) h) := by
  have hb2 : parse_two (a ++ (("..").toList) ++ b) a b =
      ⟨Slot.pyAddr s, Slot.pyAddr e, z, some true, []⟩ := by
    have hc := hbare
    simp only [parse_start_end, hsb] at hc
    exact hc
  have hc2 : parse_two (a ++ [','] ++ b) a b =
      ⟨Slot.pyAddr s, Slot.pyAddr e, z, some true, []⟩ := by
    have hok : (parse_two (a ++ (("..").toList) ++ b) a b).isOk = some true := by
      rw [hb2]
    rw [(parse_two_ok_indep (a ++ [','] ++ b) hok).2, hb2]
  have hpc : parse_start_end (pyStrip (a ++ [','] ++ b)) =
      ⟨Slot.pyAddr s, Slot.pyAddr e, z, some true, []⟩ := by
    rw [hstrip]
    simp only [parse_start_end, hsc]
    exact hc2
  have key := fun d1 d2 hsucc hpred =>
    parse_interval_eval d1 d2 (a ++ [','] ++ b) s e z hpc hsucc hpred
  have hsy : s.val + 1 ≤ maxVal s.version := by omega
  have hey : 1 ≤ e.val := by omega
  refine ⟨?_, ?_, ?_, ?_, ?_, ?_, ?_, ?_⟩
  · have t := key '[' ']' (fun hc => absurd hc (by decide)) (fun hc => absurd hc (by decide))
    simpa using t
  · have t := key '(' ']' (fun _ => hsy) (fun hc => absurd hc (by decide))
    simpa using t
  · have t := key ']' ']' (fun _ => hsy) (fun hc => absurd hc (by decide))
    simpa using t
  · have t := key '[' ')' (fun hc => absurd hc (by decide)) (fun _ => hey)
    simpa using t
  · have t := key '[' '[' (fun hc => absurd hc (by decide)) (fun _ => hey)
    simpa using t
  · have t := key '(' ')' (fun _ => hsy) (fun _ => hey)
    simpa using t
  · have t := key ']' '[' (fun _ => hsy) (fun _ => hey)
    simpa using t
  · intro hflag
    have hint := key '[' ']' (fun hc => absurd hc (by decide)) (fun hc => absurd hc (by decide))
    have hint' : parse_interval ('[' :: (a ++ [','] ++ b) ++ [']']) =
        ([], IOut.ret (.tup4 (Slot.pyAddr s) (Slot.pyAddr e) z (some true))) := by
      simpa using hint
    have hlastX : ('[' :: (a ++ [','] ++ b) ++ [']']).getLast? = some ']' := by
      rw [show '[' :: (a ++ [','] ++ b) ++ [']'] =
        ('[' :: (a ++ [','] ++ b)) ++ [']'] from rfl]
      exact List.getLast?_concat _
    have hsh : intervalShape ('[' :: (a ++ [','] ++ b) ++ [']']) = true := by
      unfold intervalShape
      rw [hlastX]
      simp [List.length_append]
    have hns1 : '/' ∉ '[' :: (a ++ [','] ++ b) ++ [']'] := by
      simp [List.mem_cons, List.mem_append, hslash.1, hslash.2]
    have hns2 : '/' ∉ a ++ (("..").toList) ++ b := by
      simp [List.mem_append, hslash.1, hslash.2]
    unfold print_ip_range
    rw [if_neg hns1, if_neg hns2, if_pos hsh,
        if_neg (show ¬ intervalShape (a ++ (("..").toList) ++ b) = true by
          rw [hbshape]; simp),
        hint', hbare]

theorem C3_interval_bracket_semantics_witness :
    parse_interval (("(1.2.3.4,1.2.3.6]").toList) =
      ([], IOut.ret (.tup4 (Slot.pyAddr ⟨4, 16909061⟩) (Slot.pyAddr ⟨4, 16909062⟩)
        [] (some true)))
  ∧ print_ip_range (("[1.2.3.4,1.2.3.6]").toList) false =
      print_ip_range (("1.2.3.4..1.2.3.6").toList) false := by
  have t := C3_interval_bracket_semantics (("1.2.3.4").toList) (("1.2.3.6").toList)
    ⟨4, 16909060⟩ ⟨4, 16909062⟩ []
    (by decide) (by decide) (by decide) (by decide) (by decide) (by decide)
    ⟨by decide, by decide⟩ (by decide)
  exact ⟨t.2.1, t.2.2.2.2.2.2.2 false⟩
